import Mathlib

/-!
# The IPFS storage driver (`registry/storage/driver/ipfs/driver.go`)

A shallow embedding of the driver: the content index (`pinlist` table), the
local mirror, the backend, the read path (`Reader`, `GetContent`), the write
session (`fileWriter`) and `PutContent`, `Move`, and the string helpers
(`getImageName`, `fullPath`).

Go strings are modelled as lists of characters, byte slices as lists of bytes.
Calls that leave the program (file system, database, IPFS shell) are modelled
by their documented effect on an explicit state, and each of them that can
fail takes its outcome from a record of outcomes (`Ext`), so that every
`if err != nil` branch of the source is a branch of the model. The state holds
the regular files of the mirror by name; directories are not part of it:
`os.MkdirAll` is present through its outcome only, and that a name is a
directory is an answer of `os.Stat` taken from the outcomes. Operations run
one after the other: a file handle stands for the file of its name.
-/

namespace Ipfs

/-- A Go string. -/
abbrev Str := List Char

/-- A Go byte slice. -/
abbrev Bytes := List UInt8

/-! ## Go standard library: `strings.ReplaceAll`, `path.Clean`, `path.Join` -/

/-- The scan of `strings.ReplaceAll` for a non-empty `old`: the first argument
counts the characters of the occurrence being replaced that are still to be
skipped. Occurrences are found left to right and do not overlap. -/
def replaceScan (old new : Str) : Nat → Str → Str
  | _, [] => []
  | 0, c :: cs =>
    if old.isPrefixOf (c :: cs) then new ++ replaceScan old new (old.length - 1) cs
    else c :: replaceScan old new 0 cs
  | k + 1, _ :: cs => replaceScan old new k cs

/-- The function `strings.ReplaceAll(s, old, new)`. With an empty `old`, Go
inserts `new` at the start and after every character. -/
def ReplaceAll (s old new : Str) : Str :=
  if old = [] then new ++ s.flatMap (fun c => c :: new)
  else replaceScan old new 0 s

/-- The segments of a path between its slashes (`strings.Split(s, "/")`). -/
def splitSlash : Str → List Str
  | [] => [[]]
  | c :: cs =>
    if c = '/' then [] :: splitSlash cs
    else
      match splitSlash cs with
      | [] => [[c]]
      | seg :: segs => (c :: seg) :: segs

/-- The main loop of `path.Clean`, one path element at a time. `out` is the
output buffer as a stack of elements (last element first). An empty element
and `.` are dropped; `..` removes the last element when there is one to
remove (`out.w > dotdot`), is kept on a relative path, and is dropped at the
root. -/
def cleanLoop (rooted : Bool) : List Str → List Str → List Str
  | [], out => out
  | seg :: segs, out =>
    if seg = [] ∨ seg = ['.'] then cleanLoop rooted segs out
    else if seg = ['.', '.'] then
      match out with
      | top :: below =>
        if top = ['.', '.'] then cleanLoop rooted segs (seg :: out)
        else cleanLoop rooted segs below
      | [] => if rooted then cleanLoop rooted segs [] else cleanLoop rooted segs [seg]
    else cleanLoop rooted segs (seg :: out)

/-- Elements joined with single slashes. -/
def joinSlash : List Str → Str
  | [] => []
  | [seg] => seg
  | seg :: segs => seg ++ '/' :: joinSlash segs

/-- The function `path.Clean`. -/
def Clean (p : Str) : Str :=
  if p = [] then ['.']
  else
    let rooted := p.head? = some '/'
    let out := (cleanLoop rooted (splitSlash p) []).reverse
    if rooted then '/' :: joinSlash out
    else if out = [] then ['.'] else joinSlash out

/-- The function `path.Join` for two elements. -/
def Join (a b : Str) : Str :=
  if a = [] ∧ b = [] then []
  else if a = [] then Clean b
  else if b = [] then Clean a
  else Clean (a ++ '/' :: b)

/-! ## `getImageName` -/

/-- The character class `[a-zA-Z-_]` of the pattern: the two letter ranges,
the hyphen and the underscore. -/
def isTagChar (c : Char) : Bool :=
  ('a' ≤ c ∧ c ≤ 'z') ∨ ('A' ≤ c ∧ c ≤ 'Z') ∨ c = '-' ∨ c = '_'

/-- A match of the pattern `/([a-zA-Z-_]*)/.*` that starts at the head of the
input: the whole match and the text of group 1. The class does not contain
the slash, so the greedy star of the group has one possible extent: all class
characters up to the next character, which has to be a slash. The final `.*`
takes the rest of the line. -/
def matchAt : Str → Option (Str × Str)
  | [] => none
  | c :: rest =>
    if c = '/' then
      match rest.dropWhile isTagChar with
      | [] => none
      | d :: tail =>
        if d = '/' then
          some (c :: rest.takeWhile isTagChar ++ d :: tail.takeWhile (fun x => x != '\n'),
                rest.takeWhile isTagChar)
        else none
    else none

/-- The function `regexp.FindStringSubmatch` for the pattern
`/([a-zA-Z-_]*)/.*`: the leftmost match, as the list of the whole match and
group 1; `none` is Go's nil slice, returned when nothing matches. -/
def FindStringSubmatch : Str → Option (List Str)
  | [] => none
  | c :: cs =>
    match matchAt (c :: cs) with
    | some (whole, g) => some [whole, g]
    | none => FindStringSubmatch cs

/-- The path prefix that `getImageName` removes. -/
def repositoriesRoot : Str := "/docker/registry/v2/repositories".toList

/-- The function `getImageName`. `none` is the run-time panic of `match[1]`
on the nil slice (index out of range). -/
def getImageName (filepath : Str) : Option Str :=
  match FindStringSubmatch (ReplaceAll filepath repositoriesRoot []) with
  | none => none
  | some m => m.get? 1

/-! ## Errors and results -/

/-- The errors the driver returns: the two typed errors of the storage driver
package, the errors it builds itself with `fmt.Errorf`, and errors handed
through from an external call (named by the call). -/
inductive Err where
  | PathNotFoundError (path : Str)
  | InvalidOffsetError (path : Str) (offset : Int)
  | errorf (msg : String)
  | external (call : String)
  deriving DecidableEq, Repr

/-- How a call of a method ends: it returns nil, returns an error, or panics. -/
inductive Ret where
  | ok
  | fail (e : Err)
  | panic
  deriving DecidableEq, Repr

deriving instance DecidableEq for Except

/-- The errors of a write session's state checks. -/
def isStateViolation (e : Err) : Prop :=
  e = Err.errorf "already closed" ∨ e = Err.errorf "already committed" ∨
    e = Err.errorf "already cancelled"

instance (e : Err) : Decidable (isStateViolation e) := by
  unfold isStateViolation; infer_instance

/-! ## State -/

/-- A row of the table `pinlist (hash text, time text, filename text primary
key, image text)`. -/
structure Row where
  hash : Str
  time : Str
  filename : Str
  image : Str
  deriving DecidableEq, Repr

/-- The primary-key constraint of `pinlist`: no two rows share a filename. -/
def primaryKey (t : List Row) : Prop := (t.map Row.filename).Nodup

/-- The state the driver works on: the regular files of the local file system
by full path name, the table `pinlist` of the package variable `database`,
the objects that the IPFS node behind the package variable `sh` holds, by
hash, and the package variable `rootdir`. -/
structure World where
  mirror : Str → Option Bytes
  pinlist : List Row
  backend : Str → Option Bytes
  rootdir : Str

/-- What `os.Stat` answers for a name that is no regular file of the state:
the name does not exist (`os.IsNotExist` holds of the error), the call fails
with another error (such as `ENOTDIR` or `EACCES`), or the name is a
directory. -/
inductive StatOutcome where
  | notExist
  | failed
  | directory
  deriving DecidableEq, Repr

/-- Outcomes of the external calls of one operation. A Boolean field says
whether the call of that name succeeds where its success is not decided by
the state. `short` is the outcome of a write to the buffered writer: `none`
when all bytes are accepted, `some k` when the underlying write fails after
`k` bytes. `add` is the answer of `sh.Add`: the hash of the published object,
or `none` when publishing fails. `now` is the value of `datetime(now)`.
`stat` is the answer of `os.Stat` for a name that is no regular file of the
state. -/
structure Ext where
  query : Bool
  prepare : Bool
  exec : Bool
  mkdirAll : Bool
  get : Bool
  openFile : Bool
  seek : Bool
  truncate : Bool
  short : Option Nat
  flush : Bool
  sync : Bool
  close : Bool
  osOpen : Bool
  add : Option Str
  remove : Bool
  rename : Bool
  readAll : Bool
  now : Str
  stat : StatOutcome

/-- The outcomes when no external call fails and `sh.Add` answers `cid`; a
name without a regular file does not exist. -/
def Ext.allOk (cid now : Str) : Ext :=
  { query := true, prepare := true, exec := true, mkdirAll := true, get := true,
    openFile := true, seek := true, truncate := true, short := none, flush := true,
    sync := true, close := true, osOpen := true, add := some cid, remove := true,
    rename := true, readAll := true, now := now, stat := StatOutcome.notExist }

/-- The driver (`type driver struct`). -/
structure driver where
  rootDirectory : Str

/-- The method `driver.fullPath`. -/
def driver.fullPath (d : driver) (subPath : Str) : Str :=
  Join d.rootDirectory subPath

/-! ## Content index -/

/-- The function `dbQueryFromPath`: the hash and time of the first row that
`select hash, time from pinlist where filename=?` yields. A failed query and
an empty result (the scan of a missing row) are errors. -/
def dbQueryFromPath (x : Ext) (t : List Row) (path : Str) : Except Err (Str × Str) :=
  if x.query then
    match t.filter (fun r => r.filename = path) with
    | [] => .error (Err.errorf "error while scanning row")
    | r :: _ => .ok (r.hash, r.time)
  else .error (Err.errorf "file not found in db")

/-- The statement `INSERT INTO pinlist(hash,time,filename,image) VALUES
(cid, now, path, image) ON CONFLICT(filename) DO UPDATE SET hash=cid,
time=now, image=image`: a row whose filename is `path` gets the new hash and
time and keeps its image (the `image` on the right of `image=image` is the
column of the existing row); without such a row the new row is inserted. -/
def upsert (now : Str) (t : List Row) (cid path image : Str) : List Row :=
  if t.any (fun r => r.filename = path) then
    t.map (fun r => if r.filename = path then { r with hash := cid, time := now, image := r.image } else r)
  else t ++ [{ hash := cid, time := now, filename := path, image := image }]

/-- The function `addToDb`: the new table and the returned error. A failed
`Prepare` or `Exec` leaves the table as it is. -/
def addToDb (x : Ext) (t : List Row) (cid path image : Str) : List Row × Option Err :=
  if x.prepare then
    if x.exec then (upsert x.now t cid path image, none)
    else (t, some (Err.external "Exec"))
  else (t, some (Err.external "Prepare"))

/-! ## Files and the buffered writer -/

/-- A handle of type `*os.File`: the name it was opened under, whether it is
still open, and its file offset. The file a handle refers to is the file of
that name in the mirror. -/
structure OsFile where
  name : Str
  isOpen : Bool
  pos : Nat
  deriving DecidableEq, Repr

/-- A `*bufio.Writer`: the bytes accepted and not yet written to the file, and
the error the writer keeps once a write has failed. The buffer is taken to be
large enough for a session: what Go may write to the file before `Flush`
reaches the file at `Flush` here. -/
structure BufioWriter where
  buf : Bytes
  err : Option Err
  deriving DecidableEq, Repr

/-- The type `fileWriter`. -/
structure fileWriter where
  file : OsFile
  size : Int
  bw : BufioWriter
  closed : Bool
  committed : Bool
  cancelled : Bool
  deriving DecidableEq, Repr

/-- The function `newFileWriter`. -/
def newFileWriter (file : OsFile) (size : Int) : fileWriter :=
  { file := file, size := size, bw := { buf := [], err := none },
    closed := false, committed := false, cancelled := false }

/-- A value of Go's `int64` after an addition: two's complement wrap-around. -/
def wrapInt64 (v : Int) : Int := (v + 2 ^ 63) % 2 ^ 64 - 2 ^ 63

/-- The content of a file after `data` is written at offset `pos` (a gap
after the old end is filled with zero bytes). -/
def writeAt (old : Bytes) (pos : Nat) (data : Bytes) : Bytes :=
  (old ++ List.replicate (pos - old.length) 0).take pos ++ data ++ old.drop (pos + data.length)

/-- The method `bufio.Writer.Write`: the new writer, the number of bytes
accepted and the error. -/
def bufioWrite (x : Ext) (bw : BufioWriter) (p : Bytes) : BufioWriter × Nat × Option Err :=
  match bw.err with
  | some e => (bw, 0, some e)
  | none =>
    match x.short with
    | none => ({ bw with buf := bw.buf ++ p }, p.length, none)
    | some k =>
      ({ buf := bw.buf ++ p.take k, err := some (Err.external "Write") },
        min k p.length, some (Err.external "Write"))

/-- The method `bufio.Writer.Flush` on the writer of a session: the kept
error is returned; with nothing buffered nothing is written; otherwise the
buffered bytes go to the file at the handle's offset, which fails on a closed
handle. -/
def bufioFlush (x : Ext) (w : World) (fw : fileWriter) : World × fileWriter × Option Err :=
  match fw.bw.err with
  | some e => (w, fw, some e)
  | none =>
    if fw.bw.buf = [] then (w, fw, none)
    else if fw.file.isOpen ∧ x.flush then
      ({ w with mirror := (Function.update w.mirror fw.file.name
            (some (writeAt ((w.mirror fw.file.name).getD []) fw.file.pos fw.bw.buf))) },
        { fw with file := { fw.file with pos := fw.file.pos + fw.bw.buf.length },
                  bw := { buf := [], err := none } },
        none)
    else (w, { fw with bw := { fw.bw with err := some (Err.external "Flush") } },
        some (Err.external "Flush"))

/-- The method `os.File.Sync`; it fails on a closed handle. -/
def fileSync (x : Ext) (f : OsFile) : Option Err :=
  if f.isOpen ∧ x.sync then none else some (Err.external "Sync")

/-- The method `os.File.Close`: a closed handle answers with an error; an open
handle is closed whether the call reports an error or not. -/
def fileClose (x : Ext) (f : OsFile) : OsFile × Option Err :=
  if f.isOpen then
    ({ f with isOpen := false }, if x.close then none else some (Err.external "Close"))
  else (f, some (Err.external "Close"))

/-- The function `os.Remove` on a file name. -/
def osRemove (x : Ext) (w : World) (name : Str) : World × Option Err :=
  if (w.mirror name).isSome ∧ x.remove then
    ({ w with mirror := Function.update w.mirror name none }, none)
  else (w, some (Err.external "Remove"))

/-! ## The write session -/

/-- The method `fileWriter.Write`: the session, the number of bytes written
and the error. -/
def fileWriter.Write (x : Ext) (fw : fileWriter) (p : Bytes) : fileWriter × Int × Option Err :=
  if fw.closed then (fw, 0, some (Err.errorf "already closed"))
  else if fw.committed then (fw, 0, some (Err.errorf "already committed"))
  else if fw.cancelled then (fw, 0, some (Err.errorf "already cancelled"))
  else
    match bufioWrite x fw.bw p with
    | (bw, n, err) => ({ fw with bw := bw, size := wrapInt64 (fw.size + n) }, n, err)

/-- The method `fileWriter.Size`. -/
def fileWriter.Size (fw : fileWriter) : Int := fw.size

/-- The key under which `Close` enters the file into the index:
`strings.ReplaceAll(fname, rootdir, "")`. -/
def indexKey (rootdir fname : Str) : Str := ReplaceAll fname rootdir []

/-- The method `fileWriter.Close`. After the handle is closed the session is
marked closed; the file is opened again by name (the error of `os.Open` is
dropped in the source, and `sh.Add` of the nil file fails), published with
`sh.Add`, and entered into the index under `indexKey` with the image name
that `getImageName` finds, which may panic. -/
def fileWriter.Close (x : Ext) (w : World) (fw : fileWriter) : World × fileWriter × Ret :=
  if fw.closed then (w, fw, Ret.fail (Err.errorf "already closed"))
  else
    match bufioFlush x w fw with
    | (w1, fw1, some e) => (w1, fw1, Ret.fail e)
    | (w1, fw1, none) =>
      match fileSync x fw1.file with
      | some e => (w1, fw1, Ret.fail e)
      | none =>
        match fileClose x fw1.file with
        | (f, some e) => (w1, { fw1 with file := f }, Ret.fail e)
        | (f, none) =>
          let fw2 := { fw1 with file := f, closed := true }
          let file := if x.osOpen then w1.mirror f.name else none
          let fname := indexKey w1.rootdir f.name
          match file with
          | none => (w1, fw2, Ret.fail (Err.errorf "error adding file to ipfs"))
          | some content =>
            match x.add with
            | none => (w1, fw2, Ret.fail (Err.errorf "error adding file to ipfs"))
            | some cid =>
              let w2 := { w1 with backend := Function.update w1.backend cid (some content) }
              match getImageName fname with
              | none => (w2, fw2, Ret.panic)
              | some image =>
                match addToDb x w2.pinlist cid fname image with
                | (t, some _) =>
                  ({ w2 with pinlist := t }, fw2,
                    Ret.fail (Err.errorf "error adding file entry to database"))
                | (t, none) => ({ w2 with pinlist := t }, fw2, Ret.ok)

/-- The method `fileWriter.Cancel`. -/
def fileWriter.Cancel (x : Ext) (w : World) (fw : fileWriter) : World × fileWriter × Ret :=
  if fw.closed then (w, fw, Ret.fail (Err.errorf "already closed"))
  else
    let fw1 := { fw with cancelled := true, file := (fileClose x fw.file).1 }
    match osRemove x w fw.file.name with
    | (w1, none) => (w1, fw1, Ret.ok)
    | (w1, some e) => (w1, fw1, Ret.fail e)

/-- The method `fileWriter.Commit`. -/
def fileWriter.Commit (x : Ext) (w : World) (fw : fileWriter) : World × fileWriter × Ret :=
  if fw.closed then (w, fw, Ret.fail (Err.errorf "already closed"))
  else if fw.committed then (w, fw, Ret.fail (Err.errorf "already committed"))
  else if fw.cancelled then (w, fw, Ret.fail (Err.errorf "already cancelled"))
  else
    match bufioFlush x w fw with
    | (w1, fw1, some e) => (w1, fw1, Ret.fail e)
    | (w1, fw1, none) =>
      match fileSync x fw1.file with
      | some e => (w1, fw1, Ret.fail e)
      | none => (w1, { fw1 with committed := true }, Ret.ok)

/-! ## The driver operations -/

/-- The result of `Reader`: the file opened for reading, with the bytes it
holds and the offset it is positioned at. -/
structure Stream where
  name : Str
  content : Bytes
  pos : Nat
  deriving DecidableEq, Repr

/-- The function `ioutil.ReadAll` on a stream: the bytes from its position to
the end of the file. -/
def Stream.readAll (s : Stream) : Bytes := s.content.drop s.pos

/-- The call `file.Seek(offset, io.SeekStart)` on a regular file: the new
position is the requested offset, also past the end of the file; a negative
offset is an error. -/
def fileSeek (x : Ext) (offset : Int) : Except Err Int :=
  if 0 ≤ offset ∧ x.seek then .ok offset else .error (Err.external "Seek")

/-- The method `driver.Reader`. On an index hit the object is fetched with
`sh.Get` into the mirror file, replacing what is there; then the mirror file
is opened and positioned. -/
def driver.Reader (d : driver) (x : Ext) (w : World) (subPath : Str) (offset : Int) :
    World × Except Err Stream :=
  let fetched : Except Err World :=
    match dbQueryFromPath x w.pinlist subPath with
    | .ok (hash, _) =>
      if x.mkdirAll then
        match w.backend hash with
        | some object =>
          if x.get then
            .ok { w with mirror := (Function.update w.mirror (d.fullPath subPath) (some object)) }
          else .error (Err.external "Get")
        | none => .error (Err.external "Get")
      else .error (Err.external "MkdirAll")
    | .error _ => .ok w
  match fetched with
  | .error e => (w, .error e)
  | .ok w1 =>
    match w1.mirror (d.fullPath subPath) with
    | none => (w1, .error (Err.PathNotFoundError subPath))
    | some content =>
      if x.openFile then
        match fileSeek x offset with
        | .error e => (w1, .error e)
        | .ok seekPos =>
          if seekPos < offset then (w1, .error (Err.InvalidOffsetError subPath offset))
          else (w1, .ok { name := d.fullPath subPath, content := content, pos := seekPos.toNat })
      else (w1, .error (Err.external "OpenFile"))

/-- The method `driver.GetContent`. -/
def driver.GetContent (d : driver) (x : Ext) (w : World) (path : Str) :
    World × Except Err Bytes :=
  match d.Reader x w path 0 with
  | (w1, .error e) => (w1, .error e)
  | (w1, .ok rc) =>
    if x.readAll then (w1, .ok rc.readAll) else (w1, .error (Err.external "ReadAll"))

/-- The method `driver.Writer`. The file is created when it is missing; it is
truncated, or with `append` the session starts at its end. -/
def driver.Writer (d : driver) (x : Ext) (w : World) (subPath : Str) (append : Bool) :
    World × Except Err fileWriter :=
  let fullPath := d.fullPath subPath
  if x.mkdirAll then
    if x.openFile then
      let w1 : World := { w with mirror := (Function.update w.mirror fullPath
        (some ((w.mirror fullPath).getD []))) }
      if append = false then
        if x.truncate then
          ({ w1 with mirror := (Function.update w1.mirror fullPath (some [])) },
            .ok (newFileWriter { name := fullPath, isOpen := true, pos := 0 } 0))
        else (w1, .error (Err.external "Truncate"))
      else
        if x.seek then
          let n := ((w.mirror fullPath).getD []).length
          (w1, .ok (newFileWriter { name := fullPath, isOpen := true, pos := n } n))
        else (w1, .error (Err.external "Seek"))
    else (w, .error (Err.external "OpenFile"))
  else (w, .error (Err.external "MkdirAll"))

/-- The call `io.Copy(writer, bytes.NewReader(contents))`: the reader hands
all its bytes to one call of `Write` (none when it is empty), and a short
write without an error is `io.ErrShortWrite`. -/
def ioCopy (x : Ext) (fw : fileWriter) (contents : Bytes) : fileWriter × Option Err :=
  if contents = [] then (fw, none)
  else
    match fw.Write x contents with
    | (fw1, _, some e) => (fw1, some e)
    | (fw1, m, none) =>
      if m = contents.length then (fw1, none) else (fw1, some (Err.external "short write"))

/-- What a function returns when its deferred `Close` ended with `r`: the
error of `Close` is dropped, a panic of `Close` goes on to the caller. -/
def afterDeferred (r : Ret) (ret : Ret) : Ret :=
  match r with
  | Ret.panic => Ret.panic
  | _ => ret

/-- The method `driver.PutContent`. `x` gives the outcomes of the external
calls up to `Commit` (or `Cancel`), `xc` those of the deferred `Close`. -/
def driver.PutContent (d : driver) (x xc : Ext) (w : World) (subPath : Str) (contents : Bytes) :
    World × Ret :=
  match d.Writer x w subPath false with
  | (w1, .error e) => (w1, Ret.fail e)
  | (w1, .ok writer) =>
    match ioCopy x writer contents with
    | (writer1, some e) =>
      match writer1.Cancel x w1 with
      | (w2, writer2, _) =>
        match writer2.Close xc w2 with
        | (w3, _, r) => (w3, afterDeferred r (Ret.fail e))
    | (writer1, none) =>
      match writer1.Commit x w1 with
      | (w2, writer2, ret) =>
        match writer2.Close xc w2 with
        | (w3, _, r) => (w3, afterDeferred r ret)

/-- Whether a proper ancestor of the name is a regular file of the mirror:
some slash of the name has a regular file as the part before it. -/
def belowFile (mirror : Str → Option Bytes) (name : Str) : Bool :=
  (List.range name.length).any
    (fun i => decide (name.get? i = some '/') && (mirror (name.take i)).isSome)

/-- The answer of `os.Stat` as `Move` uses it. -/
inductive StatResult where
  | regular (content : Bytes)
  | directory
  | notExist
  | failed
  deriving DecidableEq, Repr

/-- The call `os.Stat(name)`. A regular file of the state is found. A name
below a regular file cannot be resolved (`ENOTDIR`), which is an error other
than not-exist. For any other name the answer comes from the outcomes: the
name does not exist, the call fails with another error, or the name is a
directory. (An error other than not-exist on an existing regular file makes
`Move` go on as for a file that was found, so it is not told apart.) -/
def osStat (x : Ext) (w : World) (name : Str) : StatResult :=
  match w.mirror name with
  | some content => StatResult.regular content
  | none =>
    if belowFile w.mirror name then StatResult.failed
    else
      match x.stat with
      | StatOutcome.notExist => StatResult.notExist
      | StatOutcome.failed => StatResult.failed
      | StatOutcome.directory => StatResult.directory

/-- The files of the mirror after a directory `source` was renamed to `dest`:
the names below `dest` hold what the names below `source` held, and the names
below `source` are gone. -/
def renameTree (mirror : Str → Option Bytes) (source dest : Str) : Str → Option Bytes :=
  fun name =>
    if (dest ++ ['/']).isPrefixOf name then mirror (source ++ name.drop dest.length)
    else if (source ++ ['/']).isPrefixOf name then none
    else mirror name

/-- The method `driver.Move`. Only the not-exist answer of `os.Stat` ends the
call with `PathNotFoundError`. After any other error of `os.Stat` the call
goes on to `os.MkdirAll` and `os.Rename`, and `os.Rename` of the name that
could not be resolved fails. A source that is a regular file or a directory
is renamed; `os.Rename` of a file onto itself changes nothing. -/
def driver.Move (d : driver) (x : Ext) (w : World) (sourcePath destPath : Str) : World × Ret :=
  let source := d.fullPath sourcePath
  let dest := d.fullPath destPath
  match osStat x w source with
  | StatResult.notExist => (w, Ret.fail (Err.PathNotFoundError sourcePath))
  | StatResult.failed =>
    if x.mkdirAll then (w, Ret.fail (Err.external "Rename"))
    else (w, Ret.fail (Err.external "MkdirAll"))
  | StatResult.regular content =>
    if x.mkdirAll then
      if x.rename then
        ({ w with mirror := fun name =>
            if name = dest then some content else if name = source then none else w.mirror name },
          Ret.ok)
      else (w, Ret.fail (Err.external "Rename"))
    else (w, Ret.fail (Err.external "MkdirAll"))
  | StatResult.directory =>
    if x.mkdirAll then
      if x.rename then ({ w with mirror := renameTree w.mirror source dest }, Ret.ok)
      else (w, Ret.fail (Err.external "Rename"))
    else (w, Ret.fail (Err.external "MkdirAll"))

/-! ## Cleaned absolute paths -/

/-- A path element of a cleaned path: not empty, without a slash, and neither
`.` nor `..`. -/
def isElem (seg : Str) : Prop :=
  seg ≠ [] ∧ '/' ∉ seg ∧ seg ≠ ['.'] ∧ seg ≠ ['.', '.']

/-- The absolute path with the given elements: a slash before each. -/
def absPath (segs : List Str) : Str := segs.flatMap (fun seg => '/' :: seg)

/-- The elements behind the leading slash of a string that is empty or starts
with a slash. -/
def afterSlash : Str → List Str
  | [] => []
  | _ :: rest => splitSlash rest

/-! ## Concrete states -/

/-- The default root directory. -/
def exRoot : Str := "/var/lib/registry".toList

/-- A driver on the default root directory. -/
def exDriver : driver := { rootDirectory := exRoot }

/-- The state of a fresh store on the default root directory: no mirror file,
an empty index, an empty backend. -/
def exWorld : World :=
  { mirror := fun _ => none, pinlist := [], backend := fun _ => none, rootdir := exRoot }

/-- A blob path of the registry. -/
def exPath : Str := "/docker/registry/v2/repositories/myimage/blob1".toList

/-- External calls that all succeed, with the given answer of `sh.Add`. -/
def exOk (cid : String) : Ext := Ext.allOk cid.toList "2024-01-01 00:00:00".toList

/-- The bytes of `hello`. -/
def exHello : Bytes := [104, 101, 108, 108, 111]

/-- A session opened on `exPath` in the fresh store. -/
def exSession : fileWriter :=
  newFileWriter { name := exDriver.fullPath exPath, isOpen := true, pos := 0 } 0

/-- The state in which `exSession` is open: its file exists and is empty. -/
def exSessionWorld : World := (exDriver.Writer (exOk "Qm1") exWorld exPath false).1

/-- The session `exSession` after `Cancel`. -/
def exCancelled : fileWriter := (exSession.Cancel (exOk "Qm1") exSessionWorld).2.1

/-- The state after `exSession` was cancelled: its file is removed. -/
def exCancelledWorld : World := (exSession.Cancel (exOk "Qm1") exSessionWorld).1

/-- The state after `exSession` was cancelled and the same path was then
written with `PutContent`: the cancelled session's file name exists again. -/
def exRewritten : World :=
  (exDriver.PutContent (exOk "Qm1") (exOk "Qm1") exCancelledWorld exPath exHello).1

/-- A table with one row, for `exPath`. -/
def exTable : List Row :=
  [{ hash := "Qm1".toList, time := "t0".toList, filename := exPath, image := "myimage".toList }]

/-- The state after `PutContent(exPath, hello)` on the fresh store, with a
successful publish that answered the hash `QmHello`. -/
def exPublished : World :=
  (exDriver.PutContent (exOk "QmHello") (exOk "QmHello") exWorld exPath exHello).1

/-- The state `exPublished` after the mirror file of `exPath` was removed
directly. -/
def exEvicted : World :=
  { exPublished with
    mirror := (Function.update exPublished.mirror (exDriver.fullPath exPath) none) }

/-- The bytes of `world`. -/
def exNew : Bytes := [119, 111, 114, 108, 100]

/-- External calls that all succeed, except that `sh.Add` fails. -/
def exAddFails : Ext := { exOk "" with add := none }

/-- The state after `PutContent(exPath, world)` on `exPublished`, when the
publish of the deferred `Close` fails. -/
def exStale : World :=
  (exDriver.PutContent (exOk "") exAddFails exPublished exPath exNew).1

/-- A repository path whose name contains digits. -/
def exDigits : Str := "/docker/registry/v2/repositories/ubuntu20/_layers/sha256".toList

/-- A driver whose root directory is `/registry`. -/
def exRegistryDriver : driver := { rootDirectory := "/registry".toList }

/-- The fresh store on the root directory `/registry`. -/
def exRegistryWorld : World :=
  { mirror := fun _ => none, pinlist := [], backend := fun _ => none,
    rootdir := "/registry".toList }

/-- External calls that all succeed, except that `Sync` fails. -/
def exSyncFails : Ext := { exOk "Qm1" with sync := false }

/-! ## Write session: state checks -/

/-- A session with one of its three flags set rejects `Write`: nothing is
written and the session is as before. -/
theorem write_rejected (x : Ext) (fw : fileWriter) (p : Bytes)
    (h : fw.closed = true ∨ fw.committed = true ∨ fw.cancelled = true) :
    ∃ e, fw.Write x p = (fw, 0, some e) ∧ isStateViolation e := by
  unfold fileWriter.Write isStateViolation
  by_cases h1 : fw.closed = true
  · exact ⟨_, by simp [h1], Or.inl rfl⟩
  · by_cases h2 : fw.committed = true
    · exact ⟨_, by simp [h1, h2], Or.inr (Or.inl rfl)⟩
    · have h3 : fw.cancelled = true := by
        rcases h with h | h | h
        · exact absurd h h1
        · exact absurd h h2
        · exact h
      exact ⟨_, by simp [h1, h2, h3], Or.inr (Or.inr rfl)⟩

/-- A session with one of its three flags set rejects `Commit`: the state and
the session are as before. -/
theorem commit_rejected (x : Ext) (w : World) (fw : fileWriter)
    (h : fw.closed = true ∨ fw.committed = true ∨ fw.cancelled = true) :
    ∃ e, fw.Commit x w = (w, fw, Ret.fail e) ∧ isStateViolation e := by
  unfold fileWriter.Commit isStateViolation
  by_cases h1 : fw.closed = true
  · exact ⟨_, by simp [h1], Or.inl rfl⟩
  · by_cases h2 : fw.committed = true
    · exact ⟨_, by simp [h1, h2], Or.inr (Or.inl rfl)⟩
    · have h3 : fw.cancelled = true := by
        rcases h with h | h | h
        · exact absurd h h1
        · exact absurd h h2
        · exact h
      exact ⟨_, by simp [h1, h2, h3], Or.inr (Or.inr rfl)⟩

/-- A closed session rejects `Cancel`. -/
theorem cancel_rejected (x : Ext) (w : World) (fw : fileWriter) (h : fw.closed = true) :
    fw.Cancel x w = (w, fw, Ret.fail (Err.errorf "already closed")) := by
  simp [fileWriter.Cancel, h]

/-- A closed session rejects `Close`. -/
theorem close_rejected (x : Ext) (w : World) (fw : fileWriter) (h : fw.closed = true) :
    fw.Close x w = (w, fw, Ret.fail (Err.errorf "already closed")) := by
  simp [fileWriter.Close, h]

/-- A `Commit` that returns nil leaves the session committed. -/
theorem commit_ok_committed (x : Ext) (w : World) (fw : fileWriter)
    (h : (fw.Commit x w).2.2 = Ret.ok) : (fw.Commit x w).2.1.committed = true := by
  revert h
  unfold fileWriter.Commit
  repeat' split
  all_goals simp

/-- After `Cancel` the session is closed (it was before) or cancelled. -/
theorem cancel_flags (x : Ext) (w : World) (fw : fileWriter) :
    (fw.Cancel x w).2.1.closed = true ∨ (fw.Cancel x w).2.1.cancelled = true := by
  unfold fileWriter.Cancel
  by_cases h : fw.closed = true
  · left; simp [h]
  · right
    rw [if_neg h]
    rcases osRemove x w fw.file.name with ⟨w1, _ | e⟩ <;> rfl

/-- A `Close` that returns nil leaves the session closed. -/
theorem close_ok_closed (x : Ext) (w : World) (fw : fileWriter)
    (h : (fw.Close x w).2.2 = Ret.ok) : (fw.Close x w).2.1.closed = true := by
  revert h
  unfold fileWriter.Close
  by_cases h1 : fw.closed = true
  · simp [h1]
  rw [if_neg h1]
  rcases bufioFlush x w fw with ⟨w1, fw1, _ | e⟩ <;> dsimp only
  · rcases fileSync x fw1.file with _ | e <;> dsimp only
    · rcases fileClose x fw1.file with ⟨f, _ | e⟩ <;> dsimp only
      · rcases (if x.osOpen = true then w1.mirror f.name else none) with _ | content <;>
          dsimp only
        · simp
        · rcases x.add with _ | cid <;> dsimp only
          · simp
          · rcases getImageName (indexKey w1.rootdir f.name) with _ | image <;> dsimp only
            · simp
            · rcases addToDb x w1.pinlist cid (indexKey w1.rootdir f.name) image
                with ⟨t, _ | e⟩ <;> simp
      · simp
    · simp
  · simp

/-- The error of a failed `Flush` is the error the writer kept, or the error
of the write. -/
theorem flush_error (x : Ext) (w : World) (fw : fileWriter) (e : Err)
    (h : (bufioFlush x w fw).2.2 = some e) : fw.bw.err = some e ∨ e = Err.external "Flush" := by
  revert h
  unfold bufioFlush
  rcases fw.bw.err with _ | e0
  · dsimp only
    by_cases hb : fw.bw.buf = []
    · simp [hb]
    · by_cases ho : fw.file.isOpen = true ∧ x.flush = true
      · simp [hb, ho]
      · simp only [hb, ho, if_false]
        intro h
        right
        exact (Option.some.inj h).symm
  · dsimp only
    intro h
    left
    exact h

/-- How `Close` ends: it leaves the session closed, or it stops with the
error of `Flush` (the error the writer kept, or the error of the write), of
`Sync` or of the close of the handle. -/
theorem close_closed_or_early (x : Ext) (w : World) (fw : fileWriter) :
    (fw.Close x w).2.1.closed = true ∨
    ∃ e, (fw.Close x w).2.2 = Ret.fail e ∧
      (fw.bw.err = some e ∨ e = Err.external "Flush" ∨ e = Err.external "Sync" ∨
        e = Err.external "Close") := by
  unfold fileWriter.Close
  by_cases h1 : fw.closed = true
  · left; simp [h1]
  rw [if_neg h1]
  have hfl := flush_error x w fw
  rcases hf : bufioFlush x w fw with ⟨w1, fw1, _ | e⟩ <;> dsimp only
  · have hsy : ∀ e, fileSync x fw1.file = some e → e = Err.external "Sync" := by
      intro e
      unfold fileSync
      by_cases hs : fw1.file.isOpen = true ∧ x.sync = true
      · simp [hs]
      · simp only [hs, if_false]
        intro h
        exact (Option.some.inj h).symm
    rcases hs2 : fileSync x fw1.file with _ | e <;> dsimp only
    · have hcl : ∀ e, (fileClose x fw1.file).2 = some e → e = Err.external "Close" := by
        intro e
        unfold fileClose
        by_cases ho : fw1.file.isOpen = true
        · by_cases hc : x.close = true
          · simp [ho, hc]
          · simp only [ho, hc, if_true, if_false]
            intro h
            exact (Option.some.inj h).symm
        · simp only [ho, if_false]
          intro h
          exact (Option.some.inj h).symm
      rcases hc2 : fileClose x fw1.file with ⟨f, _ | e⟩ <;> dsimp only
      · left
        rcases (if x.osOpen = true then w1.mirror f.name else none) with _ | content <;>
          dsimp only
        · rcases x.add with _ | cid <;> dsimp only
          rcases getImageName (indexKey w1.rootdir f.name) with _ | image <;> dsimp only
          rcases addToDb x w1.pinlist cid (indexKey w1.rootdir f.name) image
            with ⟨t, _ | e⟩ <;> rfl
      · right
        exact ⟨e, rfl, Or.inr (Or.inr (Or.inr (hcl e (by rw [hc2]))))⟩
    · right
      exact ⟨e, rfl, Or.inr (Or.inr (Or.inl (hsy e hs2)))⟩
  · right
    rcases hfl e (by rw [hf]) with h | h
    · exact ⟨e, rfl, Or.inl h⟩
    · exact ⟨e, rfl, Or.inr (Or.inl h)⟩

/-- A `Close` that returned nil, that panicked, or that (on a session whose
writer kept no error) returned the error of the publish or of the index
statement has left the session closed. -/
theorem close_outcome_closed (x : Ext) (w : World) (fw : fileWriter)
    (h : (fw.Close x w).2.2 = Ret.ok ∨ (fw.Close x w).2.2 = Ret.panic ∨
      (fw.bw.err = none ∧
        ((fw.Close x w).2.2 = Ret.fail (Err.errorf "error adding file to ipfs") ∨
          (fw.Close x w).2.2 = Ret.fail (Err.errorf "error adding file entry to database")))) :
    (fw.Close x w).2.1.closed = true := by
  rcases close_closed_or_early x w fw with hc | ⟨e, he, hwhich⟩
  · exact hc
  · exfalso
    rw [he] at h
    rcases h with h | h | ⟨hnone, h⟩
    · cases h
    · cases h
    · rw [hnone] at hwhich
      rcases hwhich with hw | hw | hw | hw
      · cases hw
      · subst hw; rcases h with h | h <;> cases h
      · subst hw; rcases h with h | h <;> cases h
      · subst hw; rcases h with h | h <;> cases h

/-- A `Cancel` on a session that is not closed is not rejected: it returns
nil or the error of `os.Remove`. -/
theorem cancel_not_rejected (x : Ext) (w : World) (fw : fileWriter) (h : fw.closed = false)
    (e : Err) (he : (fw.Cancel x w).2.2 = Ret.fail e) : ¬ isStateViolation e := by
  revert he
  unfold fileWriter.Cancel osRemove
  simp only [h, Bool.false_eq_true, if_false]
  by_cases hr : (w.mirror fw.file.name).isSome = true ∧ x.remove = true
  · simp [hr]
  · simp only [hr, if_false]
    intro he
    have : e = Err.external "Remove" := (Ret.fail.inj he).symm
    subst this
    decide

/-! ## C4, C5 -/

/-- C4, as amended. Write-session state checks. (1) After a `Commit` that
returned nil, `Write` fails with a state-violation error, returns 0 and
leaves the session (its buffer, and its size as `Size` reports it) as it was,
and a second `Commit` fails with a state-violation error and changes nothing.
(2) After `Cancel`, `Write` and `Commit` fail with a state-violation error
and change nothing. (3) After a `Close` that has closed the session, `Cancel`
fails with a state-violation error and changes nothing; these are the
`Close` that returned nil, the `Close` that panicked in `getImageName`, and,
on a session whose writer kept no error, the `Close` that returned the error
of the publish or of the index statement. (4) A `Close` that has not closed
the session has stopped with the error of `Flush`, of `Sync` or of the close
of the handle, and the `Cancel` after it is not rejected: it does not return
a state-violation error. -/
theorem C4_state_checks (x y : Ext) (w : World) (fw : fileWriter) (p : Bytes) :
    ((fw.Commit x w).2.2 = Ret.ok →
      (∃ e, (fw.Commit x w).2.1.Write y p = ((fw.Commit x w).2.1, 0, some e) ∧
        isStateViolation e) ∧
      ((fw.Commit x w).2.1.Write y p).1.Size = (fw.Commit x w).2.1.Size ∧
      (∃ e, (fw.Commit x w).2.1.Commit y (fw.Commit x w).1 =
          ((fw.Commit x w).1, (fw.Commit x w).2.1, Ret.fail e) ∧ isStateViolation e)) ∧
    ((∃ e, (fw.Cancel x w).2.1.Write y p = ((fw.Cancel x w).2.1, 0, some e) ∧
        isStateViolation e) ∧
      (∃ e, (fw.Cancel x w).2.1.Commit y (fw.Cancel x w).1 =
          ((fw.Cancel x w).1, (fw.Cancel x w).2.1, Ret.fail e) ∧ isStateViolation e)) ∧
    (((fw.Close x w).2.2 = Ret.ok ∨ (fw.Close x w).2.2 = Ret.panic ∨
        (fw.bw.err = none ∧
          ((fw.Close x w).2.2 = Ret.fail (Err.errorf "error adding file to ipfs") ∨
            (fw.Close x w).2.2 =
              Ret.fail (Err.errorf "error adding file entry to database")))) →
      ∃ e, (fw.Close x w).2.1.Cancel y (fw.Close x w).1 =
          ((fw.Close x w).1, (fw.Close x w).2.1, Ret.fail e) ∧ isStateViolation e) ∧
    ((fw.Close x w).2.1.closed = false →
      (∃ e, (fw.Close x w).2.2 = Ret.fail e ∧
        (fw.bw.err = some e ∨ e = Err.external "Flush" ∨ e = Err.external "Sync" ∨
          e = Err.external "Close")) ∧
      ∀ e, ((fw.Close x w).2.1.Cancel y (fw.Close x w).1).2.2 = Ret.fail e →
        ¬ isStateViolation e) := by
  refine ⟨fun h => ⟨?_, ?_, ?_⟩, ⟨?_, ?_⟩, fun h => ?_, fun h => ⟨?_, ?_⟩⟩
  · exact write_rejected y _ p (Or.inr (Or.inl (commit_ok_committed x w fw h)))
  · obtain ⟨e, he, _⟩ :=
      write_rejected y _ p (Or.inr (Or.inl (commit_ok_committed x w fw h)))
    rw [he]
  · exact commit_rejected y _ _ (Or.inr (Or.inl (commit_ok_committed x w fw h)))
  · rcases cancel_flags x w fw with hc | hc
    · exact write_rejected y _ p (Or.inl hc)
    · exact write_rejected y _ p (Or.inr (Or.inr hc))
  · rcases cancel_flags x w fw with hc | hc
    · exact commit_rejected y _ _ (Or.inl hc)
    · exact commit_rejected y _ _ (Or.inr (Or.inr hc))
  · exact ⟨_, cancel_rejected y _ _ (close_outcome_closed x w fw h), Or.inl rfl⟩
  · rcases close_closed_or_early x w fw with hc | hearly
    · rw [h] at hc; cases hc
    · exact hearly
  · exact fun e he => cancel_not_rejected y _ _ h e he

/-- C4 on the session `exSession`: `Commit` and `Close` return nil there, a
`Close` whose publish fails returns the publish error, and the rejections
follow; a `Close` whose `Sync` fails leaves the session open, and the
`Cancel` after it returns no state-violation error. -/
theorem C4_state_checks_witness :
    (exSession.Commit (exOk "Qm1") exSessionWorld).2.2 = Ret.ok ∧
    (exSession.Close (exOk "Qm1") exSessionWorld).2.2 = Ret.ok ∧
    (exSession.Close exAddFails exSessionWorld).2.2 =
      Ret.fail (Err.errorf "error adding file to ipfs") ∧
    (exSession.Close exSyncFails exSessionWorld).2.1.closed = false ∧
    (∃ e, (exSession.Commit (exOk "Qm1") exSessionWorld).2.1.Write (exOk "Qm1") exHello =
        ((exSession.Commit (exOk "Qm1") exSessionWorld).2.1, 0, some e) ∧ isStateViolation e) ∧
    (∃ e, (exSession.Close (exOk "Qm1") exSessionWorld).2.1.Cancel (exOk "Qm1")
          (exSession.Close (exOk "Qm1") exSessionWorld).1 =
        ((exSession.Close (exOk "Qm1") exSessionWorld).1,
          (exSession.Close (exOk "Qm1") exSessionWorld).2.1, Ret.fail e) ∧
        isStateViolation e) ∧
    (∃ e, (exSession.Close exAddFails exSessionWorld).2.1.Cancel (exOk "Qm1")
          (exSession.Close exAddFails exSessionWorld).1 =
        ((exSession.Close exAddFails exSessionWorld).1,
          (exSession.Close exAddFails exSessionWorld).2.1, Ret.fail e) ∧
        isStateViolation e) ∧
    (∀ e, ((exSession.Close exSyncFails exSessionWorld).2.1.Cancel (exOk "Qm1")
          (exSession.Close exSyncFails exSessionWorld).1).2.2 = Ret.fail e →
        ¬ isStateViolation e) :=
  ⟨by decide, by decide, by decide, by decide,
    ((C4_state_checks (exOk "Qm1") (exOk "Qm1") exSessionWorld exSession exHello).1
      (by decide)).1,
    (C4_state_checks (exOk "Qm1") (exOk "Qm1") exSessionWorld exSession exHello).2.2.1
      (Or.inl (by decide)),
    (C4_state_checks exAddFails (exOk "Qm1") exSessionWorld exSession exHello).2.2.1
      (Or.inr (Or.inr ⟨by decide, Or.inl (by decide)⟩)),
    ((C4_state_checks exSyncFails (exOk "Qm1") exSessionWorld exSession exHello).2.2.2
      (by decide)).2⟩

/-- C4 as stated fails in its part (3) for a `Close` that has returned
without closing the session. On the open session `exSession`, a `Close`
whose `Sync` fails returns that error and leaves the session open; the
`Cancel` after it is not rejected: it returns nil and removes the file. With
no external failure at all: on the cancelled session `exCancelled`, `Close`
returns the error of `Sync` on the closed handle, and the `Cancel` after it
returns the error of `os.Remove`, which is no state-violation error. -/
theorem C4_counterexample :
    (exDriver.Writer (exOk "Qm1") exWorld exPath false).2 = .ok exSession ∧
    (exSession.Close exSyncFails exSessionWorld).2.2 = Ret.fail (Err.external "Sync") ∧
    (exSession.Close exSyncFails exSessionWorld).2.1.closed = false ∧
    ((exSession.Close exSyncFails exSessionWorld).2.1.Cancel (exOk "Qm1")
      (exSession.Close exSyncFails exSessionWorld).1).2.2 = Ret.ok ∧
    ((exSession.Close exSyncFails exSessionWorld).2.1.Cancel (exOk "Qm1")
      (exSession.Close exSyncFails exSessionWorld).1).1.mirror (exDriver.fullPath exPath) =
      none ∧
    (exCancelled.Close (exOk "Qm1") exCancelledWorld).2.2 = Ret.fail (Err.external "Sync") ∧
    ((exCancelled.Close (exOk "Qm1") exCancelledWorld).2.1.Cancel (exOk "Qm1")
      (exCancelled.Close (exOk "Qm1") exCancelledWorld).1).2.2 =
      Ret.fail (Err.external "Remove") ∧
    ¬ isStateViolation (Err.external "Remove") := by
  refine ⟨by decide, by decide, by decide, by decide, by decide, by decide, by decide,
    by decide⟩

/-- C5, as amended. A closed session rejects each of `Write`, `Commit`,
`Cancel` and `Close` with the error `already closed`, before any action on
the file, the backend or the index: state and session are as before. A
cancelled session rejects `Write` and `Commit` with a state-violation error,
state and session as before. -/
theorem C5_terminal_rejections (x : Ext) (w : World) (fw : fileWriter) (p : Bytes) :
    (fw.closed = true →
      fw.Write x p = (fw, 0, some (Err.errorf "already closed")) ∧
      fw.Commit x w = (w, fw, Ret.fail (Err.errorf "already closed")) ∧
      fw.Cancel x w = (w, fw, Ret.fail (Err.errorf "already closed")) ∧
      fw.Close x w = (w, fw, Ret.fail (Err.errorf "already closed"))) ∧
    (fw.cancelled = true →
      (∃ e, fw.Write x p = (fw, 0, some e) ∧ isStateViolation e) ∧
      (∃ e, fw.Commit x w = (w, fw, Ret.fail e) ∧ isStateViolation e)) := by
  refine ⟨fun h => ⟨?_, ?_, cancel_rejected x w fw h, close_rejected x w fw h⟩,
    fun h => ⟨write_rejected x fw p (Or.inr (Or.inr h)),
      commit_rejected x w fw (Or.inr (Or.inr h))⟩⟩
  · simp [fileWriter.Write, h]
  · simp [fileWriter.Commit, h]

/-- C5 on a closed and on a cancelled session. -/
theorem C5_terminal_rejections_witness :
    ((exSession.Close (exOk "Qm1") exSessionWorld).2.1.Cancel (exOk "Qm1") exWorld =
        (exWorld, (exSession.Close (exOk "Qm1") exSessionWorld).2.1,
          Ret.fail (Err.errorf "already closed"))) ∧
    exCancelled.cancelled = true ∧
    (∃ e, exCancelled.Write (exOk "Qm1") exHello = (exCancelled, 0, some e) ∧
      isStateViolation e) :=
  ⟨((C5_terminal_rejections (exOk "Qm1") exWorld
      (exSession.Close (exOk "Qm1") exSessionWorld).2.1 exHello).1 (by decide)).2.2.1,
    by decide,
    ((C5_terminal_rejections (exOk "Qm1") exWorld exCancelled exHello).2 (by decide)).1⟩

/-- C5 as stated fails on a cancelled session (`exCancelled`: the session
that `Writer` returned for `exPath`, after its `Cancel`): `Cancel` after
`Cancel` is not stopped by the state check. It calls `os.Remove` again: it returns the
error of that call, which is no state-violation error, and when the file name
exists again it removes that file and returns nil. `Close` after `Cancel`
is not stopped by the state check either: it goes on to `Flush` and `Sync`
and returns the error of `Sync` on the closed handle. -/
theorem C5_counterexample :
    (exDriver.Writer (exOk "Qm1") exWorld exPath false).2 = .ok exSession ∧
    exCancelled.cancelled = true ∧
    (exCancelled.Cancel (exOk "Qm1") exCancelledWorld).2.2 = Ret.fail (Err.external "Remove") ∧
    ¬ isStateViolation (Err.external "Remove") ∧
    exRewritten.mirror (exDriver.fullPath exPath) = some exHello ∧
    (exCancelled.Cancel (exOk "Qm1") exRewritten).2.2 = Ret.ok ∧
    (exCancelled.Cancel (exOk "Qm1") exRewritten).1.mirror (exDriver.fullPath exPath) = none ∧
    (exCancelled.Close (exOk "Qm1") exCancelledWorld).2.2 = Ret.fail (Err.external "Sync") ∧
    ¬ isStateViolation (Err.external "Sync") := by
  refine ⟨by decide, by decide, by decide, by decide, by decide, by decide, by decide,
    by decide, by decide⟩

/-! ## C8: the content index -/

/-- What the conflict branch of the statement does to a row. -/
theorem upsert_map_of_absent (now cid path : Str) (t : List Row)
    (h : ∀ r ∈ t, r.filename ≠ path) :
    t.map (fun r => if r.filename = path then
      ({ r with hash := cid, time := now, image := r.image } : Row) else r) = t := by
  induction t with
  | nil => rfl
  | cons r rs ih =>
    have hr : r.filename ≠ path := h r (List.mem_cons_self _ _)
    simp only [List.map_cons, if_neg hr]
    rw [ih (fun q hq => h q (List.mem_cons_of_mem _ hq))]

/-- Rows of a path that is absent are filtered away. -/
theorem filter_of_absent (path : Str) (t : List Row) (h : ∀ r ∈ t, r.filename ≠ path) :
    t.filter (fun r => r.filename = path) = [] := by
  rw [List.filter_eq_nil_iff]
  intro r hr
  simpa using h r hr

/-- The conflict branch under the primary key: the rows of `path` are one
row, with the new hash and time and the image it had. -/
theorem conflict_filter (now cid path image : Str) (t : List Row) (hpk : primaryKey t)
    (hex : ∃ r ∈ t, r.filename = path) :
    (t.map (fun r => if r.filename = path then
      ({ r with hash := cid, time := now, image := r.image } : Row) else r)).filter
        (fun r => r.filename = path) =
      [{ hash := cid, time := now, filename := path,
         image := ((t.find? (fun r => r.filename = path)).map Row.image).getD image }] := by
  induction t with
  | nil => simp at hex
  | cons r rs ih =>
    unfold primaryKey at hpk
    rw [List.map_cons, List.nodup_cons] at hpk
    by_cases hr : r.filename = path
    · have habs : ∀ q ∈ rs, q.filename ≠ path := by
        intro q hq hqp
        exact hpk.1 (List.mem_map.mpr ⟨q, hq, by rw [hqp, hr]⟩)
      rw [List.map_cons, upsert_map_of_absent now cid path rs habs, if_pos hr]
      rw [List.filter_cons_of_pos (by simpa using hr), filter_of_absent path rs habs]
      simp [List.find?, hr]
    · have hex2 : ∃ q ∈ rs, q.filename = path := by
        rcases hex with ⟨q, hq, hqp⟩
        rcases List.mem_cons.mp hq with rfl | hq
        · exact absurd hqp hr
        · exact ⟨q, hq, hqp⟩
      rw [List.map_cons, if_neg hr, List.filter_cons_of_neg (by simpa using hr)]
      rw [ih hpk.2 hex2]
      simp [List.find?, hr]

/-- Under the primary key, the rows of `path` after the statement are one
row: it has the new hash and time, and the image of the row that was there
before, or the new image when there was none. -/
theorem upsert_filter (now cid path image : Str) (t : List Row) (hpk : primaryKey t) :
    (upsert now t cid path image).filter (fun r => r.filename = path) =
      [{ hash := cid, time := now, filename := path,
         image := ((t.find? (fun r => r.filename = path)).map Row.image).getD image }] := by
  unfold upsert
  by_cases hany : t.any (fun r => r.filename = path) = true
  · rw [if_pos hany]
    apply conflict_filter now cid path image t hpk
    simpa using hany
  · rw [if_neg hany]
    have habs : ∀ r ∈ t, r.filename ≠ path := by simpa using hany
    rw [List.filter_append, filter_of_absent path t habs]
    have hnone : t.find? (fun r => r.filename = path) = none := by
      rw [List.find?_eq_none]
      intro r hr
      simpa using habs r hr
    simp [hnone]

/-- The statement leaves the rows of every other path as they are. -/
theorem upsert_others (now cid path image : Str) (t : List Row) :
    (upsert now t cid path image).filter (fun r => r.filename ≠ path) =
      t.filter (fun r => r.filename ≠ path) := by
  unfold upsert
  split
  · rename_i hany
    clear hany
    induction t with
    | nil => rfl
    | cons r rs ih =>
      by_cases hr : r.filename = path
      · rw [List.map_cons, if_pos hr, List.filter_cons_of_neg (by simpa using hr),
          List.filter_cons_of_neg (by simpa using hr), ih]
      · rw [List.map_cons, if_neg hr, List.filter_cons_of_pos (by simpa using hr),
          List.filter_cons_of_pos (by simpa using hr), ih]
  · simp [List.filter_append]

/-- The statement keeps the primary key. -/
theorem upsert_primaryKey (now cid path image : Str) (t : List Row) (hpk : primaryKey t) :
    primaryKey (upsert now t cid path image) := by
  unfold upsert primaryKey at *
  split
  · have hmap : (t.map (fun r => if r.filename = path then
        ({ r with hash := cid, time := now, image := r.image } : Row) else r)).map Row.filename
        = t.map Row.filename := by
      rw [List.map_map]
      apply List.map_congr_left
      intro r _
      by_cases hr : r.filename = path <;> simp [hr]
    rw [hmap]; exact hpk
  · rename_i hany
    have habs : ∀ r ∈ t, r.filename ≠ path := by simpa using hany
    rw [List.map_append, List.nodup_append]
    refine ⟨hpk, by simp, ?_⟩
    intro a ha hb
    rcases List.mem_map.mp ha with ⟨r, hr, rfl⟩
    simp at hb
    exact habs r hr hb

/-- C8. Upsert semantics of the content index. On a table that meets its
primary key, after an `addToDb(cid, path, image)` that returned nil the table
holds exactly one row for `path`; `dbQueryFromPath(path)` returns `cid` (and
the time of the statement); the image of that row is the image of the row
that `path` had before, when it had one, and the new image otherwise; the
rows of every other path are unchanged; and the primary key still holds. -/
theorem C8_upsert (x y : Ext) (t : List Row) (cid path image : Str)
    (hpk : primaryKey t) (hok : (addToDb x t cid path image).2 = none)
    (hq : y.query = true) :
    (∃ r, (addToDb x t cid path image).1.filter (fun q => q.filename = path) = [r] ∧
      r.hash = cid ∧
      (∀ r0 ∈ t, r0.filename = path → r.image = r0.image) ∧
      ((∀ r0 ∈ t, r0.filename ≠ path) → r.image = image)) ∧
    dbQueryFromPath y (addToDb x t cid path image).1 path = .ok (cid, x.now) ∧
    (addToDb x t cid path image).1.filter (fun q => q.filename ≠ path) =
      t.filter (fun q => q.filename ≠ path) ∧
    primaryKey (addToDb x t cid path image).1 := by
  have ht : (addToDb x t cid path image).1 = upsert x.now t cid path image := by
    unfold addToDb at hok ⊢
    by_cases hp : x.prepare = true
    · by_cases he : x.exec = true
      · simp [hp, he]
      · simp [hp, he] at hok
    · simp [hp] at hok
  rw [ht]
  have hf := upsert_filter x.now cid path image t hpk
  refine ⟨⟨_, hf, rfl, ?_, ?_⟩, ?_, upsert_others _ _ _ _ _, upsert_primaryKey _ _ _ _ _ hpk⟩
  · intro r0 hr0 hr0p
    have hfind : t.find? (fun r => r.filename = path) = some r0 := by
      clear hf ht hok
      induction t with
      | nil => simp at hr0
      | cons r rs ih =>
        unfold primaryKey at hpk
        rw [List.map_cons, List.nodup_cons] at hpk
        rcases List.mem_cons.mp hr0 with rfl | hmem
        · simp [List.find?, hr0p]
        · have hr : r.filename ≠ path := by
            intro hrp
            exact hpk.1 (List.mem_map.mpr ⟨r0, hmem, by rw [hr0p, hrp]⟩)
          simp only [List.find?, hr, decide_False]
          exact ih hpk.2 hmem
    simp [hfind]
  · intro habs
    have hnone : t.find? (fun r => r.filename = path) = none := by
      rw [List.find?_eq_none]
      intro r hr
      simpa using habs r hr
    simp [hnone]
  · unfold dbQueryFromPath
    rw [if_pos hq, hf]

/-- C8 on `exTable`: the row of `exPath` gets the new hash and keeps its image. -/
theorem C8_upsert_witness :
    (∃ r, (addToDb (exOk "Qm2") exTable "Qm2".toList exPath "other".toList).1.filter
        (fun q => q.filename = exPath) = [r] ∧
      r.hash = "Qm2".toList ∧
      (∀ r0 ∈ exTable, r0.filename = exPath → r.image = r0.image) ∧
      ((∀ r0 ∈ exTable, r0.filename ≠ exPath) → r.image = "other".toList)) ∧
    dbQueryFromPath (exOk "Qm2") (addToDb (exOk "Qm2") exTable "Qm2".toList exPath
        "other".toList).1 exPath = .ok ("Qm2".toList, (exOk "Qm2").now) ∧
    (addToDb (exOk "Qm2") exTable "Qm2".toList exPath "other".toList).1.filter
        (fun q => q.filename ≠ exPath) = exTable.filter (fun q => q.filename ≠ exPath) ∧
    primaryKey (addToDb (exOk "Qm2") exTable "Qm2".toList exPath "other".toList).1 :=
  C8_upsert (exOk "Qm2") (exOk "Qm2") exTable "Qm2".toList exPath "other".toList
    (by unfold primaryKey; decide) (by decide) (by decide)

/-! ## The read path -/

/-- The call `Reader` on an index hit whose object the backend holds, when no
external call fails: the object replaces the mirror file and is served. -/
theorem reader_hit (d : driver) (x : Ext) (w : World) (path h t : Str) (b : Bytes)
    (offset : Int) (hit : dbQueryFromPath x w.pinlist path = .ok (h, t))
    (hb : w.backend h = some b) (hm : x.mkdirAll = true) (hg : x.get = true)
    (ho : x.openFile = true) (hs : x.seek = true) (hoff : 0 ≤ offset) :
    d.Reader x w path offset =
      ({ w with mirror := Function.update w.mirror (d.fullPath path) (some b) },
        .ok { name := d.fullPath path, content := b, pos := offset.toNat }) := by
  unfold driver.Reader fileSeek
  simp [hit, hb, hm, hg, ho, hs, hoff]

/-- The call `Reader` on an index miss: the mirror file alone decides. -/
theorem reader_miss (d : driver) (x : Ext) (w : World) (path : Str) (offset : Int) (e : Err)
    (hmiss : dbQueryFromPath x w.pinlist path = .error e) :
    d.Reader x w path offset =
      match w.mirror (d.fullPath path) with
      | none => (w, .error (Err.PathNotFoundError path))
      | some content =>
        if x.openFile = true ∧ x.seek = true ∧ 0 ≤ offset then
          (w, .ok { name := d.fullPath path, content := content, pos := offset.toNat })
        else if x.openFile = true then (w, .error (Err.external "Seek"))
        else (w, .error (Err.external "OpenFile")) := by
  unfold driver.Reader fileSeek
  simp only [hmiss]
  rcases w.mirror (d.fullPath path) with _ | content
  · rfl
  · by_cases ho : x.openFile = true
    · by_cases hs : x.seek = true
      · by_cases hoff : 0 ≤ offset
        · simp [ho, hs, hoff]
        · simp [ho, hs, hoff]
      · simp [ho, hs]
    · simp [ho]

/-- The branch of `Reader` that returns `InvalidOffsetError` is never taken:
the position that `Seek` returns is the offset asked for. -/
theorem reader_never_invalid_offset (d : driver) (x : Ext) (w : World) (path : Str)
    (offset : Int) (p : Str) (o : Int) :
    (d.Reader x w path offset).2 ≠ .error (Err.InvalidOffsetError p o) := by
  unfold driver.Reader fileSeek
  have key : ∀ w1 : World,
      (match w1.mirror (d.fullPath path) with
        | none => (w1, (Except.error (Err.PathNotFoundError path) : Except Err Stream))
        | some content =>
          if x.openFile = true then
            match (if 0 ≤ offset ∧ x.seek = true then (Except.ok offset : Except Err Int)
              else Except.error (Err.external "Seek")) with
            | .error e => (w1, .error e)
            | .ok seekPos =>
              if seekPos < offset then (w1, .error (Err.InvalidOffsetError path offset))
              else (w1, .ok { name := d.fullPath path, content := content,
                              pos := seekPos.toNat })
          else (w1, .error (Err.external "OpenFile"))).2 ≠
        .error (Err.InvalidOffsetError p o) := by
    intro w1
    rcases w1.mirror (d.fullPath path) with _ | content
    · simp
    · by_cases ho : x.openFile = true
      · by_cases hs : 0 ≤ offset ∧ x.seek = true
        · simp [ho, hs]
        · simp [ho, hs]
      · simp [ho]
  dsimp only
  rcases dbQueryFromPath x w.pinlist path with e | ⟨h, t⟩
  · exact key w
  · dsimp only
    by_cases hm : x.mkdirAll = true
    · rw [if_pos hm]
      rcases w.backend h with _ | b
      · simp
      · dsimp only
        by_cases hg : x.get = true
        · rw [if_pos hg]; exact key _
        · simp [hg]
    · simp [hm]

/-! ## C2, C6, C3 -/

/-- C2. Read on an index hit serves the backend's object. When the index
query for `path` yields hash `h`, the backend holds object `b` under `h`, and
the external calls of the read succeed, `Reader(path, 0)` returns a stream
positioned at 0 whose content is `b`, and the mirror file then holds `b`.
Nothing is assumed of the mirror beforehand: the file may be absent or hold
any bytes. -/
theorem C2_read_hit (d : driver) (x : Ext) (w : World) (path h t : Str) (b : Bytes)
    (hit : dbQueryFromPath x w.pinlist path = .ok (h, t))
    (hb : w.backend h = some b) (hm : x.mkdirAll = true) (hg : x.get = true)
    (ho : x.openFile = true) (hs : x.seek = true) :
    (d.Reader x w path 0).2 = .ok { name := d.fullPath path, content := b, pos := 0 } ∧
    ({ name := d.fullPath path, content := b, pos := 0 } : Stream).readAll = b ∧
    (d.Reader x w path 0).1.mirror (d.fullPath path) = some b := by
  rw [reader_hit d x w path h t b 0 hit hb hm hg ho hs (le_refl 0)]
  refine ⟨rfl, rfl, ?_⟩
  simp

/-- C2 on the example of the specification: after `PutContent(exPath, hello)`
with a successful publish and a direct removal of the mirror file,
`Reader(exPath, 0)` yields `hello`. -/
theorem C2_read_hit_witness :
    (exDriver.PutContent (exOk "QmHello") (exOk "QmHello") exWorld exPath exHello).2 = Ret.ok ∧
    exEvicted.mirror (exDriver.fullPath exPath) = none ∧
    (exDriver.Reader (exOk "") exEvicted exPath 0).2 =
      .ok { name := exDriver.fullPath exPath, content := exHello, pos := 0 } ∧
    ({ name := exDriver.fullPath exPath, content := exHello, pos := 0 } : Stream).readAll =
      exHello ∧
    (exDriver.Reader (exOk "") exEvicted exPath 0).1.mirror (exDriver.fullPath exPath) =
      some exHello :=
  ⟨by decide, by decide,
    C2_read_hit exDriver (exOk "") exEvicted exPath "QmHello".toList (exOk "QmHello").now
      exHello (by decide) (by decide) (by decide) (by decide) (by decide) (by decide)⟩

/-- C6 fails on the code. The branch of `Reader` that returns
`InvalidOffsetError` is never taken, for no state, path and offset: for every
offset that is not negative, also one past the end of the file, `Reader`
returns a stream positioned at the offset when its external calls succeed
(shown here on an index miss, where the mirror file alone decides). On the
file of `exPath`, which holds the 5 bytes of `hello`, `Reader(exPath, 10)`
returns a stream positioned at offset 10, with nothing left to read. -/
theorem C6_offset_past_end_not_rejected :
    (∀ (d : driver) (x : Ext) (w : World) (path : Str) (offset : Int) (p : Str) (o : Int),
      (d.Reader x w path offset).2 ≠ .error (Err.InvalidOffsetError p o)) ∧
    (∀ (d : driver) (x : Ext) (w : World) (path : Str) (offset : Int) (e : Err)
      (content : Bytes), dbQueryFromPath x w.pinlist path = .error e →
      w.mirror (d.fullPath path) = some content → x.openFile = true → x.seek = true →
      0 ≤ offset →
      (d.Reader x w path offset).2 =
        .ok { name := d.fullPath path, content := content, pos := offset.toNat }) ∧
    exPublished.mirror (exDriver.fullPath exPath) = some exHello ∧
    (exDriver.Reader (exOk "") exPublished exPath 10).2 =
      .ok { name := exDriver.fullPath exPath, content := exHello, pos := 10 } ∧
    ({ name := exDriver.fullPath exPath, content := exHello, pos := 10 } : Stream).readAll = [] :=
  ⟨reader_never_invalid_offset,
    fun d x w path offset e content hmiss hfile ho hs hoff => by
      rw [reader_miss d x w path offset e hmiss, hfile]
      simp [ho, hs, hoff],
    by decide, by decide, by decide⟩

/-- A `Move` whose `os.Stat` cannot resolve the source (the source is below a
regular file, or the call fails with an error other than not-exist) goes on
to `os.MkdirAll` and `os.Rename` and returns the error of one of them, never
`PathNotFoundError`; nothing changes. -/
theorem move_unresolved (d : driver) (x : Ext) (w : World) (src dst : Str)
    (hfile : w.mirror (d.fullPath src) = none)
    (h : belowFile w.mirror (d.fullPath src) = true ∨ x.stat = StatOutcome.failed) :
    d.Move x w src dst = (w, Ret.fail (Err.external "Rename")) ∨
    d.Move x w src dst = (w, Ret.fail (Err.external "MkdirAll")) := by
  have hstat : osStat x w (d.fullPath src) = StatResult.failed := by
    unfold osStat
    rcases h with h | h
    · simp [hfile, h]
    · by_cases hb : belowFile w.mirror (d.fullPath src) = true
      · simp [hfile, hb]
      · simp [hfile, hb, h]
  unfold driver.Move
  simp only [hstat]
  by_cases hm : x.mkdirAll = true
  · left; simp [hm]
  · right; simp [hm]

/-- C1 fails on the code. In `exPublished` the path `exPath` has an index
entry from the earlier write of `hello`. `PutContent(exPath, world)` whose
deferred `Close` fails to publish returns nil all the same (the error of
`Close` is dropped) and leaves `world` in the mirror file, and the index
entry still names the hash of `hello`; the following `GetContent(exPath)`
fetches that object over the mirror file and returns `hello`. -/
theorem C1_round_trip_broken :
    (exDriver.PutContent (exOk "") exAddFails exPublished exPath exNew).2 = Ret.ok ∧
    exStale.mirror (exDriver.fullPath exPath) = some exNew ∧
    dbQueryFromPath (exOk "") exStale.pinlist exPath =
      .ok ("QmHello".toList, (exOk "").now) ∧
    (exDriver.GetContent (exOk "") exStale exPath).2 = .ok exHello ∧
    exHello ≠ exNew := by
  refine ⟨by decide, by decide, by decide, by decide, by decide⟩

/-- C7 fails on the code for a name that is not made of letters, hyphens and
underscores only: for the repository `ubuntu20` the pattern does not match at
the first segment and matches at the next one, so `getImageName` returns
`_layers`. For `exPath` it returns `myimage`. -/
theorem C7_tag_not_first_segment :
    exDigits = "/docker/registry/v2/repositories/".toList ++ "ubuntu20".toList ++
      '/' :: "_layers/sha256".toList ∧
    getImageName exDigits = some "_layers".toList ∧
    getImageName exPath = some "myimage".toList := by
  refine ⟨by decide, by decide, by decide⟩

/-- C9 fails on the code. `ReplaceAll` removes every occurrence of the root
string, not the leading one only: with the root directory `/registry` the key
of `exPath` loses its segment `registry`, and with a root directory written
with a final slash, `/var/lib/registry/`, the key loses its leading slash.
After `PutContent(exPath, hello)` on the root `/registry` returned nil, the
index query for `exPath` that `Reader` and `Stat` make finds no row. -/
theorem C9_key_differs_from_path :
    indexKey "/registry".toList (exRegistryDriver.fullPath exPath) =
      "/docker/v2/repositories/myimage/blob1".toList ∧
    indexKey "/registry".toList (exRegistryDriver.fullPath exPath) ≠ exPath ∧
    indexKey "/var/lib/registry/".toList
        (driver.fullPath { rootDirectory := "/var/lib/registry/".toList } exPath) =
      "docker/registry/v2/repositories/myimage/blob1".toList ∧
    (exRegistryDriver.PutContent (exOk "QmHello") (exOk "QmHello") exRegistryWorld exPath
      exHello).2 = Ret.ok ∧
    dbQueryFromPath (exOk "") (exRegistryDriver.PutContent (exOk "QmHello") (exOk "QmHello")
      exRegistryWorld exPath exHello).1.pinlist exPath =
      .error (Err.errorf "error while scanning row") := by
  refine ⟨by decide, by decide, by decide, by decide, by decide⟩

/-- C10 fails on the code. The pattern needs two slashes with only letters,
hyphens and underscores between them: for `/foo`, and for a path whose
segments before the last all contain a digit or a dot, nothing matches,
`FindStringSubmatch` returns nil and `match[1]` panics. `PutContent` of such
a path panics in its deferred `Close`. -/
theorem C10_getImageName_panics :
    FindStringSubmatch "/foo".toList = none ∧
    getImageName "/foo".toList = none ∧
    getImageName "/docker/registry/v2/repositories/ubuntu20/blob1".toList = none ∧
    getImageName "/v1.2/blob".toList = none ∧
    (exDriver.PutContent (exOk "QmHello") (exOk "QmHello") exWorld "/foo".toList exHello).2 =
      Ret.panic := by
  refine ⟨by decide, by decide, by decide, by decide, by decide⟩

/-! ## Where the string helpers do return the logical name -/

/-- With `k` characters of an occurrence left to skip, the scan drops them. -/
theorem replaceScan_skip (old new : Str) (pre s : Str) :
    replaceScan old new pre.length (pre ++ s) = replaceScan old new 0 s := by
  induction pre with
  | nil => rfl
  | cons c cs ih =>
    cases s with
    | nil =>
      simp only [List.length_cons, List.cons_append, replaceScan]
      simpa using ih
    | cons a as =>
      simp only [List.length_cons, List.cons_append, replaceScan]
      exact ih

/-- An occurrence at the head of the input is replaced and the scan goes on
behind it. -/
theorem replaceScan_head (old new s : Str) (h : old ≠ []) :
    replaceScan old new 0 (old ++ s) = new ++ replaceScan old new 0 s := by
  cases old with
  | nil => exact absurd rfl h
  | cons c cs =>
    have hp : (c :: cs).isPrefixOf (c :: (cs ++ s)) = true := by
      rw [List.isPrefixOf_iff_prefix]
      exact List.prefix_append (c :: cs) s
    show replaceScan (c :: cs) new 0 (c :: (cs ++ s)) = _
    rw [replaceScan, if_pos hp]
    show new ++ replaceScan (c :: cs) new cs.length (cs ++ s) = _
    rw [replaceScan_skip]

/-- An input without an occurrence is returned as it is. -/
theorem replaceScan_none (old new s : Str) (h : ¬ old <:+: s) :
    replaceScan old new 0 s = s := by
  induction s with
  | nil => rfl
  | cons c cs ih =>
    have hp : (old.isPrefixOf (c :: cs)) = false := by
      rw [Bool.eq_false_iff]
      intro hpre
      rw [List.isPrefixOf_iff_prefix] at hpre
      exact h hpre.isInfix
    have htail : ¬ old <:+: cs := by
      intro hin
      exact h (hin.trans (List.suffix_cons c cs).isInfix)
    simp only [replaceScan, hp]
    rw [ih htail]
    simp

/-- The index key is the logical path when the file name is the root string
followed by the path and the root string does not occur in the path. -/
theorem indexKey_of_root_append (root p : Str) (hroot : root ≠ [])
    (hfree : ¬ root <:+: p) : indexKey root (root ++ p) = p := by
  unfold indexKey ReplaceAll
  rw [if_neg hroot, replaceScan_head root [] p hroot, replaceScan_none root [] p hfree]
  rfl

/-- The class run at the head of a name of class characters that a slash
follows is the name. -/
theorem takeWhile_tag_name (name rest : Str) (htag : ∀ c ∈ name, isTagChar c = true) :
    (name ++ '/' :: rest).takeWhile isTagChar = name ∧
    (name ++ '/' :: rest).dropWhile isTagChar = '/' :: rest := by
  induction name with
  | nil =>
    have hs : isTagChar '/' = false := by decide
    simp [List.takeWhile, List.dropWhile, hs]
  | cons c cs ih =>
    have hc : isTagChar c = true := htag c (List.mem_cons_self _ _)
    have ih2 := ih (fun a ha => htag a (List.mem_cons_of_mem _ ha))
    constructor
    · show (c :: (cs ++ '/' :: rest)).takeWhile isTagChar = c :: cs
      rw [List.takeWhile_cons, if_pos hc, ih2.1]
    · show (c :: (cs ++ '/' :: rest)).dropWhile isTagChar = '/' :: rest
      rw [List.dropWhile_cons, if_pos hc, ih2.2]

/-- For a repository name made of letters, hyphens and underscores only, in a
path in which the repositories prefix occurs at the start only,
`getImageName` returns the name. -/
theorem getImageName_of_tag_name (name rest : Str)
    (htag : ∀ c ∈ name, isTagChar c = true)
    (hfree : ¬ repositoriesRoot <:+: ('/' :: (name ++ '/' :: rest))) :
    getImageName (repositoriesRoot ++ '/' :: (name ++ '/' :: rest)) = some name := by
  have hne : repositoriesRoot ≠ [] := by decide
  unfold getImageName ReplaceAll
  rw [if_neg hne, replaceScan_head repositoriesRoot [] _ hne,
    replaceScan_none repositoriesRoot [] _ hfree]
  obtain ⟨ht, hd⟩ := takeWhile_tag_name name rest htag
  simp only [List.nil_append, FindStringSubmatch, matchAt, if_true, hd, ht]
  rfl

/-- Splitting an element without a slash that stands alone or before a slash. -/
theorem splitSlash_elem (seg u : Str) (hseg : '/' ∉ seg) (hu : u = [] ∨ u.head? = some '/') :
    splitSlash (seg ++ u) = seg :: afterSlash u := by
  induction seg with
  | nil =>
    rcases hu with rfl | hu
    · rfl
    · cases u with
      | nil => simp at hu
      | cons c cs =>
        simp only [List.head?_cons, Option.some.injEq] at hu
        subst hu
        simp [splitSlash, afterSlash]
  | cons c cs ih =>
    have hc : c ≠ '/' := fun h => hseg (by rw [h]; exact List.mem_cons_self _ _)
    have hcs : '/' ∉ cs := fun h => hseg (List.mem_cons_of_mem _ h)
    show splitSlash (c :: (cs ++ u)) = _
    rw [splitSlash, if_neg hc, ih hcs]

/-- An absolute path before a string that is empty or starts with a slash is
empty or starts with a slash. -/
theorem absPath_append_head (segs : List Str) (t : Str) (ht : t = [] ∨ t.head? = some '/') :
    absPath segs ++ t = [] ∨ (absPath segs ++ t).head? = some '/' := by
  cases segs with
  | nil => simpa [absPath] using ht
  | cons s ss => right; simp [absPath]

/-- The elements of an absolute path before a string that is empty or starts
with a slash. -/
theorem afterSlash_absPath (segs : List Str) (t : Str) (hsegs : ∀ s ∈ segs, isElem s)
    (ht : t = [] ∨ t.head? = some '/') :
    afterSlash (absPath segs ++ t) = segs ++ afterSlash t := by
  induction segs with
  | nil => simp [absPath]
  | cons s ss ih =>
    have hs : '/' ∉ s := (hsegs s (List.mem_cons_self _ _)).2.1
    have ih2 := ih (fun a ha => hsegs a (List.mem_cons_of_mem _ ha))
    have hstep : absPath (s :: ss) ++ t = '/' :: (s ++ (absPath ss ++ t)) := by
      simp [absPath]
    rw [hstep]
    show splitSlash (s ++ (absPath ss ++ t)) = _
    rw [splitSlash_elem s _ hs (absPath_append_head ss t ht), ih2]
    rfl

/-- The loop of `Clean` on elements that are empty or proper keeps the proper
ones. -/
theorem cleanLoop_elems (rooted : Bool) (segs out : List Str)
    (hsegs : ∀ s ∈ segs, s = [] ∨ isElem s) :
    cleanLoop rooted segs out = (segs.filter (fun s => s ≠ [])).reverse ++ out := by
  induction segs generalizing out with
  | nil => rfl
  | cons s ss ih =>
    have ih2 := fun o => ih o (fun a ha => hsegs a (List.mem_cons_of_mem _ ha))
    rcases hsegs s (List.mem_cons_self _ _) with rfl | hel
    · have hstep : cleanLoop rooted ([] :: ss) out = cleanLoop rooted ss out := by
        simp [cleanLoop]
      rw [hstep, ih2]
      simp
    · obtain ⟨h1, _, h3, h4⟩ := hel
      have hstep : cleanLoop rooted (s :: ss) out = cleanLoop rooted ss (s :: out) := by
        simp [cleanLoop, h1, h3, h4]
      rw [hstep, ih2]
      simp [List.filter_cons, h1]

/-- Joining the elements of a non-empty list behind a slash is the absolute
path. -/
theorem joinSlash_absPath (segs : List Str) (h : segs ≠ []) :
    '/' :: joinSlash segs = absPath segs := by
  induction segs with
  | nil => exact absurd rfl h
  | cons s ss ih =>
    cases ss with
    | nil => simp [joinSlash, absPath]
    | cons s2 ss2 =>
      have ih2 := ih (by simp)
      show '/' :: (s ++ '/' :: joinSlash (s2 :: ss2)) = _
      rw [ih2]
      simp [absPath]

/-- An absolute path with an element starts with a slash. -/
theorem absPath_head (segs : List Str) (h : segs ≠ []) : ∃ x, absPath segs = '/' :: x := by
  cases segs with
  | nil => exact absurd rfl h
  | cons s ss => exact ⟨s ++ absPath ss, by simp [absPath]⟩

/-- Splitting a string that starts with a slash. -/
theorem splitSlash_slash (x : Str) : splitSlash ('/' :: x) = [] :: afterSlash ('/' :: x) := by
  simp [splitSlash, afterSlash]

/-- The function `path.Clean` on a non-empty rooted path. -/
theorem Clean_rooted (x : Str) :
    Clean ('/' :: x) = '/' :: joinSlash (cleanLoop true (splitSlash ('/' :: x)) []).reverse := by
  simp [Clean]

/-- The function `path.Join` on two cleaned absolute paths is their
concatenation. -/
theorem Join_absPath (rootSegs pathSegs : List Str)
    (hr : rootSegs ≠ []) (hp : pathSegs ≠ [])
    (hrs : ∀ s ∈ rootSegs, isElem s) (hps : ∀ s ∈ pathSegs, isElem s) :
    Join (absPath rootSegs) (absPath pathSegs) = absPath rootSegs ++ absPath pathSegs := by
  obtain ⟨x1, hx1⟩ := absPath_head rootSegs hr
  obtain ⟨x2, hx2⟩ := absPath_head pathSegs hp
  have hne1 : absPath rootSegs ≠ [] := by rw [hx1]; simp
  have hne2 : absPath pathSegs ≠ [] := by rw [hx2]; simp
  have hB : afterSlash ('/' :: absPath pathSegs) = [] :: pathSegs := by
    show splitSlash (absPath pathSegs) = _
    have h3 := afterSlash_absPath pathSegs [] hps (Or.inl rfl)
    rw [List.append_nil] at h3
    rw [hx2, splitSlash_slash, ← hx2, h3]
    simp [afterSlash]
  have hA : afterSlash (absPath rootSegs ++ '/' :: absPath pathSegs) =
      rootSegs ++ [] :: pathSegs := by
    rw [afterSlash_absPath rootSegs ('/' :: absPath pathSegs) hrs (Or.inr rfl), hB]
  have hcat : absPath rootSegs ++ '/' :: absPath pathSegs =
      '/' :: (x1 ++ '/' :: absPath pathSegs) := by rw [hx1]; rfl
  have hsplit : splitSlash (absPath rootSegs ++ '/' :: absPath pathSegs) =
      [] :: (rootSegs ++ [] :: pathSegs) := by
    rw [hcat, splitSlash_slash, ← hcat, hA]
  have hall : ∀ s ∈ ([] : Str) :: (rootSegs ++ [] :: pathSegs), s = [] ∨ isElem s := by
    intro s hs
    rcases List.mem_cons.mp hs with rfl | hs
    · exact Or.inl rfl
    · rcases List.mem_append.mp hs with hs | hs
      · exact Or.inr (hrs s hs)
      · rcases List.mem_cons.mp hs with rfl | hs
        · exact Or.inl rfl
        · exact Or.inr (hps s hs)
  have hkeep : ∀ l : List Str, (∀ s ∈ l, isElem s) → l.filter (fun s => s ≠ []) = l := by
    intro l hl
    rw [List.filter_eq_self]
    intro s hs
    simpa using (hl s hs).1
  have hfilter : (([] : Str) :: (rootSegs ++ [] :: pathSegs)).filter (fun s => s ≠ []) =
      rootSegs ++ pathSegs := by
    rw [List.filter_cons_of_neg (by simp), List.filter_append,
      List.filter_cons_of_neg (by simp), hkeep _ hrs, hkeep _ hps]
  have hclean : Clean (absPath rootSegs ++ '/' :: absPath pathSegs) =
      absPath (rootSegs ++ pathSegs) := by
    rw [hcat, Clean_rooted, ← hcat, hsplit, cleanLoop_elems true _ [] hall, hfilter,
      List.append_nil, List.reverse_reverse, joinSlash_absPath _ (by simp [hr])]
  unfold Join
  rw [if_neg (by simp [hne1]), if_neg hne1, if_neg hne2, hclean]
  simp [absPath]

/-- The index key of a cleaned absolute path under a cleaned absolute root
directory is the path, provided the root string does not occur in the path. -/
theorem indexKey_of_absPath (rootSegs pathSegs : List Str)
    (hr : rootSegs ≠ []) (hp : pathSegs ≠ [])
    (hrs : ∀ s ∈ rootSegs, isElem s) (hps : ∀ s ∈ pathSegs, isElem s)
    (hfree : ¬ absPath rootSegs <:+: absPath pathSegs) :
    indexKey (absPath rootSegs)
      (driver.fullPath { rootDirectory := absPath rootSegs } (absPath pathSegs)) =
      absPath pathSegs := by
  obtain ⟨x, hx⟩ := absPath_head rootSegs hr
  unfold driver.fullPath
  rw [Join_absPath _ _ hr hp hrs hps]
  exact indexKey_of_root_append _ _ (by rw [hx]; simp) hfree

/-! ## Where the round trip does hold -/

/-- A `Writer` without `append` that returns a session: the session is fresh,
on the open file of the full path, which is then empty. -/
theorem writer_ok (d : driver) (x : Ext) (w w1 : World) (path : Str) (fw : fileWriter)
    (h : d.Writer x w path false = (w1, .ok fw)) :
    fw = newFileWriter { name := d.fullPath path, isOpen := true, pos := 0 } 0 ∧
    w1.mirror (d.fullPath path) = some [] ∧ w1.pinlist = w.pinlist ∧
    w1.backend = w.backend ∧ w1.rootdir = w.rootdir := by
  unfold driver.Writer at h
  by_cases hm : x.mkdirAll = true
  · by_cases ho : x.openFile = true
    · by_cases ht : x.truncate = true
      · simp only [hm, ho, ht, if_true, Prod.mk.injEq, Except.ok.injEq] at h
        obtain ⟨hw, hfw⟩ := h
        subst hw hfw
        simp
      · simp [hm, ho, ht] at h
    · simp [hm, ho] at h
  · simp [hm] at h

/-- Writing at the start of an empty file gives the data. -/
theorem writeAt_empty (data : Bytes) : writeAt [] 0 data = data := by
  simp [writeAt]

/-- A copy and a `Commit` that both succeed on a fresh session over an empty
file: the file then holds the contents, the session is committed with an
empty buffer and an open handle, and index, backend and root are as before. -/
theorem copy_commit_ok (x : Ext) (w1 w2 : World) (name : Str) (b : Bytes)
    (fw1 fw2 : fileWriter) (hfile : w1.mirror name = some [])
    (hcopy : ioCopy x (newFileWriter { name := name, isOpen := true, pos := 0 } 0) b =
      (fw1, none))
    (hcommit : fw1.Commit x w1 = (w2, fw2, Ret.ok)) :
    w2.mirror name = some b ∧ w2.pinlist = w1.pinlist ∧ w2.backend = w1.backend ∧
    w2.rootdir = w1.rootdir ∧ fw2.bw = { buf := [], err := none } ∧ fw2.closed = false ∧
    fw2.file.isOpen = true ∧ fw2.file.name = name := by
  unfold ioCopy at hcopy
  by_cases hb : b = []
  · subst hb
    simp only [if_true, Prod.mk.injEq, and_true] at hcopy
    subst hcopy
    unfold fileWriter.Commit bufioFlush fileSync at hcommit
    by_cases hs : x.sync = true
    · simp only [newFileWriter, hs, and_self, if_true] at hcommit
      simp only [Bool.false_eq_true, if_false, Prod.mk.injEq, and_true] at hcommit
      obtain ⟨hw, hfw⟩ := hcommit
      subst hw hfw
      simp [hfile]
    · simp [newFileWriter, hs] at hcommit
  · rw [if_neg hb] at hcopy
    unfold fileWriter.Write bufioWrite at hcopy
    rcases hshort : x.short with _ | k
    · simp only [newFileWriter, hshort, Bool.false_eq_true, if_false, List.nil_append,
        Nat.cast_inj, if_true, Prod.mk.injEq, and_true] at hcopy
      subst hcopy
      unfold fileWriter.Commit bufioFlush fileSync at hcommit
      by_cases hf : x.flush = true
      · by_cases hs : x.sync = true
        · simp only [Bool.false_eq_true, if_false, hb, hf, hs, and_self, if_true,
            Prod.mk.injEq, and_true] at hcommit
          obtain ⟨hw, hfw⟩ := hcommit
          subst hw hfw
          simp [hfile, writeAt_empty]
        · simp [hb, hf, hs] at hcommit
      · simp [hb, hf] at hcommit
    · simp [newFileWriter, hshort] at hcopy

/-- The call `Close` on a session that is not closed, with an empty buffer
and an open handle, when `Sync`, `Close` of the handle, `os.Open`, `sh.Add`
and the index statement succeed: it panics when the pattern of
`getImageName` does not match the key, and otherwise publishes the file and
enters it into the index. -/
theorem close_publish (xc : Ext) (w : World) (fw : fileWriter) (b : Bytes) (cid : Str)
    (hbw : fw.bw = { buf := [], err := none }) (hcl : fw.closed = false)
    (hopenfd : fw.file.isOpen = true) (hfile : w.mirror fw.file.name = some b)
    (hsync : xc.sync = true) (hclose : xc.close = true) (hopen : xc.osOpen = true)
    (hadd : xc.add = some cid) (hprep : xc.prepare = true) (hexec : xc.exec = true) :
    ((fw.Close xc w).2.2 = Ret.panic ∨ (fw.Close xc w).2.2 = Ret.ok) ∧
    ((fw.Close xc w).2.2 = Ret.ok →
      ∃ image, (fw.Close xc w).1 =
        { w with backend := Function.update w.backend cid (some b),
                 pinlist := upsert xc.now w.pinlist cid (indexKey w.rootdir fw.file.name)
                   image }) := by
  unfold fileWriter.Close bufioFlush fileSync fileClose addToDb
  simp only [hcl, Bool.false_eq_true, if_false, hbw, if_true, hopenfd, hsync, and_self,
    hclose, hopen, hfile, hadd, hprep, hexec]
  rcases getImageName (indexKey w.rootdir fw.file.name) with _ | image
  · simp
  · simp

/-- The round trip where it holds: when `PutContent(path, b)` returns nil,
its deferred `Close` publishes and enters the file into the index (its
external calls succeed), the index key of the path is the path, and the
external calls of the read succeed, `GetContent(path)` returns `b`. -/
theorem put_get_published (d : driver) (x xc y : Ext) (w : World) (path : Str) (b : Bytes)
    (cid : Str) (hok : (d.PutContent x xc w path b).2 = Ret.ok)
    (hkey : indexKey w.rootdir (d.fullPath path) = path) (hpk : primaryKey w.pinlist)
    (hsync : xc.sync = true) (hclose : xc.close = true) (hopen : xc.osOpen = true)
    (hadd : xc.add = some cid) (hprep : xc.prepare = true) (hexec : xc.exec = true)
    (hq : y.query = true) (hm : y.mkdirAll = true) (hg : y.get = true)
    (ho : y.openFile = true) (hs : y.seek = true) (hr : y.readAll = true) :
    (d.GetContent y (d.PutContent x xc w path b).1 path).2 = .ok b := by
  unfold driver.PutContent at hok ⊢
  rcases hW : d.Writer x w path false with ⟨w1, e | writer⟩
  · simp [hW] at hok
  obtain ⟨hfw, hfile1, hp1, hb1, hr1⟩ := writer_ok d x w w1 path writer hW
  simp only [hW] at hok ⊢
  rcases hC : ioCopy x writer b with ⟨writer1, _ | e⟩
  swap
  · simp only [hC] at hok
    revert hok
    rcases writer1.Cancel x w1 with ⟨w2, writer2, r0⟩
    dsimp only
    rcases writer2.Close xc w2 with ⟨w3, writer3, r⟩
    cases r <;> simp [afterDeferred]
  simp only [hC] at hok ⊢
  rcases hM : writer1.Commit x w1 with ⟨w2, writer2, ret⟩
  simp only [hM] at hok ⊢
  have hret : ret = Ret.ok := by
    revert hok
    rcases writer2.Close xc w2 with ⟨w3, writer3, r⟩
    cases r <;> simp [afterDeferred]
  subst hret
  rw [hfw] at hC
  obtain ⟨hfile2, hp2, hb2, hr2, hbw, hcl, hfd, hname⟩ :=
    copy_commit_ok x w1 w2 (d.fullPath path) b writer1 writer2 hfile1 hC hM
  obtain ⟨hcases, hpub⟩ := close_publish xc w2 writer2 b cid hbw hcl hfd
    (by rw [hname]; exact hfile2) hsync hclose hopen hadd hprep hexec
  have hcok : (writer2.Close xc w2).2.2 = Ret.ok := by
    rcases hcases with hpanic | hgood
    · revert hok
      rcases hQ : writer2.Close xc w2 with ⟨w3, writer3, r⟩
      rw [hQ] at hpanic
      dsimp only at hpanic
      subst hpanic
      simp [afterDeferred]
    · exact hgood
  obtain ⟨image, hw3⟩ := hpub hcok
  have hfinal : (match writer2.Close xc w2 with
      | (w3, _, r) => (w3, afterDeferred r Ret.ok)).1 = (writer2.Close xc w2).1 := by
    rcases writer2.Close xc w2 with ⟨w3, writer3, r⟩
    rfl
  rw [hfinal, hw3, hname, hr2, hr1, hkey, hp2, hp1]
  have hquery : dbQueryFromPath y (upsert xc.now w.pinlist cid path image) path =
      .ok (cid, xc.now) := by
    unfold dbQueryFromPath
    rw [if_pos hq, upsert_filter xc.now cid path image w.pinlist hpk]
  unfold driver.GetContent
  rw [reader_hit d y _ path cid xc.now b 0 hquery (by simp) hm hg ho hs (le_refl 0)]
  simp [hr, Stream.readAll]

/-- The round trip on the fresh store: `PutContent(exPath, hello)` with a
successful publish, then `GetContent(exPath)`. -/
theorem put_get_published_example :
    (exDriver.GetContent (exOk "")
      (exDriver.PutContent (exOk "QmHello") (exOk "QmHello") exWorld exPath exHello).1
      exPath).2 = .ok exHello :=
  put_get_published exDriver (exOk "QmHello") (exOk "QmHello") (exOk "") exWorld exPath exHello
    "QmHello".toList (by decide) (by decide) (by unfold primaryKey; decide) (by decide)
    (by decide) (by decide) (by decide) (by decide) (by decide) (by decide) (by decide)
    (by decide) (by decide) (by decide) (by decide)

/-- The image name of `exPath`, from the general statement. -/
theorem getImageName_of_tag_name_example :
    getImageName (repositoriesRoot ++ '/' :: ("myimage".toList ++ '/' :: "blob1".toList)) =
      some "myimage".toList :=
  getImageName_of_tag_name "myimage".toList "blob1".toList (by decide) (by decide)

/-- The index key of `exPath` under the default root directory, from the
general statement. -/
theorem indexKey_of_absPath_example :
    indexKey (absPath ["var".toList, "lib".toList, "registry".toList])
      (driver.fullPath { rootDirectory := absPath ["var".toList, "lib".toList, "registry".toList] }
        (absPath ["docker".toList, "registry".toList, "v2".toList, "repositories".toList,
          "myimage".toList, "blob1".toList])) =
      absPath ["docker".toList, "registry".toList, "v2".toList, "repositories".toList,
        "myimage".toList, "blob1".toList] :=
  indexKey_of_absPath _ _ (by decide) (by decide) (by unfold isElem; decide)
    (by unfold isElem; decide) (by decide)

end Ipfs
